import Mathlib

/-!
Verification of the NuRadioReco analog-to-digital converter module
(src/NuRadioReco/modules/analogToDigitalConverter.py).

Numeric values are embedded as rationals (the Python code computes with
floating-point numbers; the spec describes the real-number semantics).
Numpy arrays become lists of rationals; external DSP collaborators
(trace_utilities.delay_trace, butterworth_filter_trace, upsampling_fir,
scipy resample / interp1d, and the units constants) are parameters of the
embedding, collected in the Externals structure below: none of the claims
depends on their behaviour, only on how this module invokes them.
-/

set_option autoImplicit false

namespace ADC

/-- Python int(q): truncation toward zero. -/
def pyInt (q : ℚ) : ℤ := if 0 ≤ q then ⌊q⌋ else ⌈q⌉

/-- numpy.rint: round half to even (banker's rounding), as an integer result. -/
def rintQ (x : ℚ) : ℤ :=
  let f := ⌊x⌋
  let r := x - f
  if r < 1 / 2 then f
  else if 1 / 2 < r then f + 1
  else if f % 2 = 0 then f else f + 1

/-- numpy.linspace(start, stop, num): num points from start to stop inclusive. -/
def linspace (start stop : ℚ) (num : ℕ) : List ℚ :=
  if num = 1 then [start]
  else (List.range num).map
    (fun i : ℕ => start + (stop - start) * (i : ℚ) / ((num : ℚ) - 1))

/-- Python slice l[:n] with possibly negative n (drop from the end). -/
def pySliceTo {α : Type} (l : List α) (n : ℤ) : List α :=
  if 0 ≤ n then l.take n.toNat else l.take (l.length - (-n).toNat)

/-- Comparator mode of perfect_comparator (source lines 40-45). -/
inductive CompMode
  | floor
  | ceiling
deriving DecidableEq

/-- Output unit of perfect_comparator (source lines 50-55). -/
inductive AdcOutput
  | voltage
  | counts
deriving DecidableEq

/-- Source line 38: lsb_voltage = adc_ref_voltage / (2 ** (adc_n_bits - 1) - 1). -/
def lsb_voltage (adc_n_bits : ℕ) (adc_ref_voltage : ℚ) : ℚ :=
  adc_ref_voltage / (2 ^ (adc_n_bits - 1) - 1)

/-- Element-wise effect of apply_saturation (source lines 100-110): the high
clip is applied first (mask computed on the original values), then the low
clip (mask computed on the buffer already clipped from above, since
saturated_trace is a numpy view of adc_counts_trace). -/
def saturate_val (adc_n_bits : ℕ) (x : ℚ) : ℚ :=
  let highest_count : ℚ := 2 ^ (adc_n_bits - 1) - 1
  let x1 := if highest_count < x then highest_count else x
  let lowest_count : ℚ := -(2 ^ (adc_n_bits - 1) : ℚ)
  if x1 < lowest_count then lowest_count else x1

/-- apply_saturation (source lines 78-110), value-level form.  The heap-level
form modelling the in-place view mutation is apply_saturation_st below.
adc_ref_voltage is accepted and unused, exactly as in the source. -/
def apply_saturation (adc_counts_trace : List ℚ) (adc_n_bits : ℕ)
    (adc_ref_voltage : ℚ) : List ℚ :=
  adc_counts_trace.map (saturate_val adc_n_bits)

/-- round_to_int (source lines 113-118): np.rint then cast to int. -/
def round_to_int (digital_trace : List ℚ) : List ℤ :=
  digital_trace.map rintQ

/-- perfect_comparator (source lines 11-57). -/
def perfect_comparator (trace : List ℚ) (adc_n_bits : ℕ) (adc_ref_voltage : ℚ)
    (mode : CompMode) (output : AdcOutput) : List ℚ :=
  let lsb := lsb_voltage adc_n_bits adc_ref_voltage
  let digital_trace :=
    match mode with
    | .floor => trace.map (fun s => ((⌊s / lsb⌋ : ℤ) : ℚ))
    | .ceiling => trace.map (fun s => ((⌈s / lsb⌉ : ℤ) : ℚ))
  let saturated := apply_saturation digital_trace adc_n_bits adc_ref_voltage
  let int_trace := round_to_int saturated
  match output with
  | .voltage => int_trace.map (fun k : ℤ => lsb * (k : ℚ))
  | .counts => int_trace.map (fun k : ℤ => (k : ℚ))

/-- perfect_floor_comparator (source lines 60-66). -/
def perfect_floor_comparator (trace : List ℚ) (adc_n_bits : ℕ)
    (adc_ref_voltage : ℚ) (output : AdcOutput) : List ℚ :=
  perfect_comparator trace adc_n_bits adc_ref_voltage .floor output

/-- perfect_ceiling_comparator (source lines 69-75). -/
def perfect_ceiling_comparator (trace : List ℚ) (adc_n_bits : ℕ)
    (adc_ref_voltage : ℚ) (output : AdcOutput) : List ℚ :=
  perfect_comparator trace adc_n_bits adc_ref_voltage .ceiling output

/-- Integer clamp to the signed adc_n_bits range; derived characterisation of
saturate_val on integer-valued inputs (see saturate_val_intCast). -/
def clamp_count (adc_n_bits : ℕ) (k : ℤ) : ℤ :=
  max (-(2 ^ (adc_n_bits - 1))) (min k (2 ^ (adc_n_bits - 1) - 1))

/-- Raw comparator count: floor or ceiling of sample / lsb. -/
def raw_count (adc_n_bits : ℕ) (adc_ref_voltage : ℚ) (mode : CompMode) (s : ℚ) : ℤ :=
  match mode with
  | .floor => ⌊s / lsb_voltage adc_n_bits adc_ref_voltage⌋
  | .ceiling => ⌈s / lsb_voltage adc_n_bits adc_ref_voltage⌉

/-! ### Heap model of numpy array aliasing

apply_saturation receives a numpy array and mutates it through the view
`saturated_trace = adc_counts_trace[:]` (source line 100): the two masked
assignments (lines 104 and 108) write into the caller's buffer, and the
returned array is that same buffer.  perfect_comparator is unaffected by
this because `np.floor`/`np.ceil` (lines 41/43) allocate a fresh array.
We model buffers as slots of a heap (allocation order = slot index). -/

/-- A heap of numpy float buffers; a reference is an index into the list. -/
abbrev Heap := List (List ℚ)

/-- Read the buffer behind a reference (empty if dangling). -/
def readArr (h : Heap) (r : ℕ) : List ℚ := (h[r]?).getD []

/-- Overwrite the buffer behind a reference. -/
def writeArr (h : Heap) (r : ℕ) (a : List ℚ) : Heap := h.set r a

/-- apply_saturation (source lines 78-110) as a heap transformer: two in-place
masked writes through a view of the argument buffer; returns the same
reference.  The second mask is computed on the buffer already clipped from
above. -/
def apply_saturation_st (h : Heap) (r : ℕ) (adc_n_bits : ℕ)
    (adc_ref_voltage : ℚ) : Heap × ℕ :=
  let highest_count : ℚ := 2 ^ (adc_n_bits - 1) - 1
  let h1 := writeArr h r
    ((readArr h r).map (fun x => if highest_count < x then highest_count else x))
  let lowest_count : ℚ := -(2 ^ (adc_n_bits - 1) : ℚ)
  let h2 := writeArr h1 r
    ((readArr h1 r).map (fun x => if x < lowest_count then lowest_count else x))
  (h2, r)

/-- perfect_comparator (source lines 11-57) as a heap transformer.
np.floor / np.ceil, np.rint, astype and the voltage rescaling all allocate
fresh buffers; only apply_saturation mutates (its own fresh argument). -/
def perfect_comparator_st (h : Heap) (r : ℕ) (adc_n_bits : ℕ)
    (adc_ref_voltage : ℚ) (mode : CompMode) (output : AdcOutput) : Heap × ℕ :=
  let lsb := lsb_voltage adc_n_bits adc_ref_voltage
  let digital :=
    match mode with
    | .floor => (readArr h r).map (fun s => ((⌊s / lsb⌋ : ℤ) : ℚ))
    | .ceiling => (readArr h r).map (fun s => ((⌈s / lsb⌉ : ℤ) : ℚ))
  let h1 := h ++ [digital]
  let r1 := h.length
  let p := apply_saturation_st h1 r1 adc_n_bits adc_ref_voltage
  let h3 := p.1 ++ [(readArr p.1 p.2).map (fun x => ((rintQ x : ℤ) : ℚ))]
  let r3 := p.1.length
  match output with
  | .voltage => (h3 ++ [(readArr h3 r3).map (fun x => lsb * x)], h3.length)
  | .counts => (h3, r3)

/-! ### The digitizer facade get_digital_trace (source lines 178-386) -/

/-- External collaborators and unit constants (imports at source lines 4-8;
spec section 6).  The unit constants are the numeric scale factors of the
NuRadioReco units convention. -/
structure Externals where
  GHz : ℚ
  MHz : ℚ
  V : ℚ
  ns : ℚ
  butterworth_filter_trace : List ℚ → ℚ → ℚ × ℚ → List ℚ
  delay_trace : List ℚ → ℚ → ℚ → ℤ → List ℚ
  resample : List ℚ → ℕ → List ℚ
  interp1d_linear : List ℚ → List ℚ → ℚ × ℚ → ℚ → ℚ
  upsampling_fir : List ℚ → ℚ → ℤ → ℤ → List ℚ

/-- The narrow Channel interface used by the module (spec section 6). -/
structure Channel where
  trace : List ℚ
  times : List ℚ
  sampling_rate : ℚ
  trace_start_time : ℚ
  id : ℤ

/-- Detector-description fields read by the module for one channel.  A `none`
mandatory field means the field is absent from the configuration mapping
(`field not in det_channel`); for the optional fields adc_time_delay and
adc_ntaps the source treats an absent field and a present-but-None field
identically, so both collapse to `none` here. -/
structure DetChannel where
  adc_nbits : Option ℕ
  adc_reference_voltage : Option ℚ
  adc_sampling_frequency : Option ℚ
  adc_time_delay : Option ℚ
  adc_ntaps : Option ℤ
  trigger_adc_nbits : Option ℕ
  trigger_adc_reference_voltage : Option ℚ
  trigger_adc_sampling_frequency : Option ℚ
  trigger_adc_time_delay : Option ℚ
  trigger_adc_ntaps : Option ℤ

/-- The ValueError exits of get_digital_trace (the spec's ConfigurationError):
missing mandatory field (line 250), ADC rate above channel rate (line 290),
Nyquist zone below one (line 297), passband beyond the input Nyquist limit
(line 309).  indexError models the numpy IndexError raised by the empty-array
accesses delayed_times[0] / perfectly_upsampled_trace[0] on degenerate input. -/
inductive AdcError
  | missingField (field : String) (channelId : ℤ)
  | adcRateTooHigh
  | nyquistZoneTooSmall
  | passbandTooWide
  | indexError
deriving DecidableEq

/-- The keys of the _adc_types dispatch table (source lines 170-171). -/
inductive AdcType
  | perfect_floor_comparator
  | perfect_ceiling_comparator
deriving DecidableEq

/-- The _adc_types lookup (source line 356). -/
def adc_dispatch (adc_type : AdcType) (trace : List ℚ) (adc_n_bits : ℕ)
    (adc_ref_voltage : ℚ) (output : AdcOutput) : List ℚ :=
  match adc_type with
  | .perfect_floor_comparator =>
      perfect_floor_comparator trace adc_n_bits adc_ref_voltage output
  | .perfect_ceiling_comparator =>
      perfect_ceiling_comparator trace adc_n_bits adc_ref_voltage output

/-- Nyquist-zone selection (source lines 292-315): zone check, passband
computation, Nyquist-limit check, Butterworth call; `none` passes the trace
through (line 315).  The zone is modelled as an integer, so the int()
conversion at line 300 is the identity. -/
def nyquist_filter_step (ext : Externals) (trace : List ℚ)
    (input_sampling_frequency adc_sampling_frequency bandwidth_edge : ℚ)
    (nyquist_zone : Option ℤ) : Except AdcError (List ℚ) :=
  match nyquist_zone with
  | none => .ok trace
  | some n =>
    if n < 1 then .error .nyquistZoneTooSmall
    else
      let passband := (((n : ℚ) - 1) * adc_sampling_frequency / 2 + bandwidth_edge,
                       (n : ℚ) * adc_sampling_frequency / 2 - bandwidth_edge)
      if input_sampling_frequency / 2 < passband.2 then .error .passbandTooWide
      else .ok (ext.butterworth_filter_trace trace input_sampling_frequency passband)

/-- Source line 350: new_n_samples = int((adc_sampling_frequency /
upsampling_frequency) * len(delayed_trace)). -/
def downsample_n_samples (adc_sampling_frequency upsampling_frequency : ℚ)
    (delayed_len : ℕ) : ℤ :=
  pyInt (adc_sampling_frequency / upsampling_frequency * (delayed_len : ℚ))

/-- Source lines 350-352: the query grid of the downsampling interpolation,
np.linspace(0, new_n_samples / adc_sampling_frequency, new_n_samples) shifted
by the channel trace start time. -/
def downsample_times (adc_sampling_frequency upsampling_frequency : ℚ)
    (delayed_len : ℕ) (trace_start_time : ℚ) : List ℚ :=
  let n := (downsample_n_samples adc_sampling_frequency upsampling_frequency delayed_len).toNat
  (linspace 0 ((n : ℚ) / adc_sampling_frequency) n).map (fun t => t + trace_start_time)

/-- Source lines 317-357: delay, upsample to the 5 GHz intermediate rate,
linear-interpolate down to the ADC grid, digitise.  The [] matches model the
IndexError of delayed_times[0] (line 336) and of the fill_value accesses
perfectly_upsampled_trace[0] / [-1] (line 346). -/
def pipeline_after_filter (ext : Externals) (ch : Channel)
    (trace filtered_trace : List ℚ)
    (input_sampling_frequency adc_sampling_frequency adc_time_delay : ℚ)
    (adc_n_bits : ℕ) (adc_ref_voltage : ℚ)
    (adc_type : AdcType) (output : AdcOutput) : Except AdcError (List ℚ) :=
  let delayed_samples : ℤ :=
    (trace.length : ℤ) - rintQ (input_sampling_frequency / adc_sampling_frequency) - 1
  let delayed_trace :=
    ext.delay_trace filtered_trace input_sampling_frequency adc_time_delay delayed_samples
  let delayed_start_time := 1 / adc_sampling_frequency
  let delayed_times :=
    pySliceTo (ch.times.map (fun t => t + delayed_start_time)) delayed_samples
  let upsampling_frequency := 5 * ext.GHz
  let stage : Except AdcError (List ℚ × List ℚ) :=
    if input_sampling_frequency < upsampling_frequency then
      let upsampling_nsamples :=
        pyInt (upsampling_frequency * (delayed_trace.length : ℚ) / input_sampling_frequency)
      let perfectly_upsampled_trace := ext.resample delayed_trace upsampling_nsamples.toNat
      match delayed_times with
      | [] => .error .indexError
      | t0 :: _ =>
        .ok (perfectly_upsampled_trace,
             (List.range perfectly_upsampled_trace.length).map
               (fun i : ℕ => (i : ℚ) / upsampling_frequency + t0))
    else .ok (delayed_trace, delayed_times)
  match stage with
  | .error e => .error e
  | .ok (perfectly_upsampled_trace, perfectly_upsampled_times) =>
    match perfectly_upsampled_trace with
    | [] => .error .indexError
    | p0 :: _ =>
      let fill := (p0, perfectly_upsampled_trace.getLastD 0)
      let resampled_times :=
        downsample_times adc_sampling_frequency upsampling_frequency
          delayed_trace.length ch.trace_start_time
      let resampled_trace :=
        resampled_times.map
          (ext.interp1d_linear perfectly_upsampled_times perfectly_upsampled_trace fill)
      .ok (adc_dispatch adc_type resampled_trace adc_n_bits adc_ref_voltage output)

/-- Source lines 359-377: optional FIR upsampling after digitisation.  Only a
factor of at least 2 triggers the filter and the sampling-frequency rescale. -/
def fir_step (ext : Externals) (det_ntaps : Option ℤ) (upsampling_factor : Option ℤ)
    (digital_trace : List ℚ) (adc_sampling_frequency : ℚ) : List ℚ × ℚ :=
  match upsampling_factor with
  | none => (digital_trace, adc_sampling_frequency)
  | some u =>
    let ntaps := match det_ntaps with
      | some t => t
      | none => u * 4
    if 2 ≤ u then
      (ext.upsampling_fir digital_trace adc_sampling_frequency u ntaps,
       adc_sampling_frequency * (u : ℚ))
    else (digital_trace, adc_sampling_frequency)

/-- Source lines 379-381: drop the last sample if the length is odd. -/
def even_trim (l : List ℚ) : List ℚ :=
  if l.length % 2 = 1 then l.dropLast else l

/-- The tail of get_digital_trace: FIR upsampling (lines 359-377) then the
even-length trim (lines 379-381), applied to the digitised trace. -/
def finalize (ext : Externals) (det_ntaps upsampling_factor : Option ℤ)
    (adc_sampling_frequency : ℚ) (r : Except AdcError (List ℚ)) :
    Except AdcError (List ℚ × ℚ) :=
  match r with
  | .error e => .error e
  | .ok digital_trace =>
    let p := fir_step ext det_ntaps upsampling_factor digital_trace adc_sampling_frequency
    .ok (even_trim p.1, p.2)

/-- get_digital_trace (source lines 178-386).  rand is the value the
process-wide generator would return for np.random.uniform(0, 1) (line 283);
it is consumed only when random_clock_offset is true.  The function always
returns the pair (trace, adc_sampling_frequency); the Python
return_sampling_frequency flag merely selects how much of the pair the caller
receives.  diode carries the replacement trace produced by
diode.tunnel_diode(channel) (line 257) when an envelope detector is given. -/
def get_digital_trace (ext : Externals) (ch : Channel) (det : DetChannel)
    (trigger_adc random_clock_offset : Bool) (adc_type : AdcType)
    (diode : Option (List ℚ)) (output : AdcOutput)
    (upsampling_factor : Option ℤ) (nyquist_zone : Option ℤ)
    (bandwidth_edge : ℚ) (rand : ℚ) : Except AdcError (List ℚ × ℚ) :=
  match (if trigger_adc then det.trigger_adc_nbits else det.adc_nbits),
        (if trigger_adc then det.trigger_adc_reference_voltage
         else det.adc_reference_voltage),
        (if trigger_adc then det.trigger_adc_sampling_frequency
         else det.adc_sampling_frequency) with
  | none, _, _ =>
    .error (.missingField (if trigger_adc then "trigger_adc_nbits" else "adc_nbits") ch.id)
  | some _, none, _ =>
    .error (.missingField
      (if trigger_adc then "trigger_adc_reference_voltage" else "adc_reference_voltage")
      ch.id)
  | some _, some _, none =>
    .error (.missingField
      (if trigger_adc then "trigger_adc_sampling_frequency" else "adc_sampling_frequency")
      ch.id)
  | some adc_n_bits, some ref_voltage_field, some sampling_frequency_field =>
    let trace := diode.getD ch.trace
    let input_sampling_frequency := ch.sampling_rate
    let adc_time_delay0 :=
      match (if trigger_adc then det.trigger_adc_time_delay else det.adc_time_delay) with
      | some d => d * ext.ns
      | none => 0
    let adc_ref_voltage := ref_voltage_field * ext.V
    let adc_sampling_frequency := sampling_frequency_field * ext.GHz
    let adc_time_delay :=
      if random_clock_offset then adc_time_delay0 + rand / adc_sampling_frequency
      else adc_time_delay0
    if ch.sampling_rate < adc_sampling_frequency then .error .adcRateTooHigh
    else
      let det_ntaps := if trigger_adc then det.trigger_adc_ntaps else det.adc_ntaps
      finalize ext det_ntaps upsampling_factor adc_sampling_frequency
        (match nyquist_filter_step ext trace input_sampling_frequency
           adc_sampling_frequency bandwidth_edge nyquist_zone with
         | .error e => .error e
         | .ok filtered_trace =>
           pipeline_after_filter ext ch trace filtered_trace input_sampling_frequency
             adc_sampling_frequency adc_time_delay adc_n_bits adc_ref_voltage
             adc_type output)

/-! ### Concrete fixtures for the witness theorems -/

/-- A concrete instantiation of the external collaborators: identity-like
unit constants and simple total functions. -/
def ext0 : Externals where
  GHz := 1
  MHz := 1 / 1000
  V := 1
  ns := 1
  butterworth_filter_trace := fun t _ _ => t
  delay_trace := fun t _ _ _ => t
  resample := fun t m => t.take m
  interp1d_linear := fun _ _ _ _ => 0
  upsampling_fir := fun t _ _ _ => t

/-- A concrete channel: ten zero samples at 5 GHz. -/
def ch0 : Channel where
  trace := List.replicate 10 0
  times := (List.range 10).map (fun i : ℕ => (i : ℚ))
  sampling_rate := 5
  trace_start_time := 0
  id := 1

/-- A concrete configuration: 8 bits, 1 V reference, 2 GHz sampling. -/
def det0 : DetChannel where
  adc_nbits := some 8
  adc_reference_voltage := some 1
  adc_sampling_frequency := some 2
  adc_time_delay := none
  adc_ntaps := none
  trigger_adc_nbits := none
  trigger_adc_reference_voltage := none
  trigger_adc_sampling_frequency := none
  trigger_adc_time_delay := none
  trigger_adc_ntaps := none

/-- Like det0 but with a 7 GHz ADC frequency, above the 5 GHz channel rate. -/
def det1 : DetChannel :=
  { det0 with adc_sampling_frequency := some 7 }

end ADC

namespace ADC

/-! ### Helper lemmas for the quantizer -/

lemma one_le_two_pow_int (m : ℕ) : (1 : ℤ) ≤ 2 ^ m := by
  have h : (1 : ℕ) ≤ 2 ^ m := Nat.one_le_pow m 2 (by norm_num)
  exact_mod_cast h

lemma one_le_two_pow_rat (m : ℕ) : (1 : ℚ) ≤ 2 ^ m := by
  have h : (1 : ℕ) ≤ 2 ^ m := Nat.one_le_pow m 2 (by norm_num)
  exact_mod_cast h

lemma rintQ_intCast (k : ℤ) : rintQ (k : ℚ) = k := by
  simp only [rintQ, Int.floor_intCast]
  norm_num

lemma saturate_val_eq_clamp (n : ℕ) (x : ℚ) :
    saturate_val n x
      = max (-(2 ^ (n - 1) : ℚ)) (min x ((2 : ℚ) ^ (n - 1) - 1)) := by
  have hle : -(2 ^ (n - 1) : ℚ) ≤ (2 : ℚ) ^ (n - 1) - 1 := by
    have := one_le_two_pow_rat (n - 1)
    linarith
  simp only [saturate_val]
  split_ifs with h1 h2 h2
  · linarith
  · rw [min_eq_right (le_of_lt h1), max_eq_right hle]
  · rw [min_eq_left (by linarith), max_eq_left (le_of_lt h2)]
  · rw [min_eq_left (by linarith), max_eq_right (by linarith)]

lemma saturate_val_intCast (n : ℕ) (k : ℤ) :
    saturate_val n (k : ℚ) = ((clamp_count n k : ℤ) : ℚ) := by
  rw [saturate_val_eq_clamp, clamp_count]
  push_cast
  ring_nf

/-- Element-wise characterisation of perfect_comparator. -/
lemma perfect_comparator_eq (trace : List ℚ) (n : ℕ) (v : ℚ) (mode : CompMode)
    (output : AdcOutput) :
    perfect_comparator trace n v mode output
      = trace.map (fun s =>
          match output with
          | .voltage => lsb_voltage n v * ((clamp_count n (raw_count n v mode s) : ℤ) : ℚ)
          | .counts => ((clamp_count n (raw_count n v mode s) : ℤ) : ℚ)) := by
  unfold perfect_comparator apply_saturation round_to_int
  cases mode <;> cases output <;>
    simp only [List.map_map] <;>
    refine List.map_congr_left (fun s _ => ?_) <;>
    simp only [Function.comp_apply, raw_count, saturate_val_intCast, rintQ_intCast]

lemma clamp_count_le (n : ℕ) (k : ℤ) :
    -(2 ^ (n - 1)) ≤ clamp_count n k ∧ clamp_count n k ≤ 2 ^ (n - 1) - 1 := by
  have hle : -((2 : ℤ) ^ (n - 1)) ≤ (2 : ℤ) ^ (n - 1) - 1 := by
    have := one_le_two_pow_int (n - 1)
    linarith
  exact ⟨le_max_left _ _, max_le hle (min_le_right _ _)⟩

lemma clamp_count_of_mem (n : ℕ) (k : ℤ)
    (h1 : -(2 ^ (n - 1)) ≤ k) (h2 : k ≤ 2 ^ (n - 1) - 1) :
    clamp_count n k = k := by
  rw [clamp_count, min_eq_left h2, max_eq_right h1]

/-! ### C1: quantizer pipeline -/

/-- C1: perfect_comparator computes the LSB voltage as
reference_voltage / (2^(bit_depth-1) - 1), takes the floor (mode floor) or
ceiling (mode ceiling) of sample / lsb as the raw count, saturates it to the
signed range, rounds to the nearest integer with ties to even, and in voltage
output mode returns lsb times the resulting integer count. -/
theorem perfect_comparator_voltage_spec (trace : List ℚ) (n : ℕ) (v : ℚ)
    (mode : CompMode) (hn : 2 ≤ n) (hv : 0 < v) :
    perfect_comparator trace n v mode .voltage
      = trace.map (fun s =>
          let lsb := v / (2 ^ (n - 1) - 1)
          let raw : ℤ := match mode with
            | .floor => ⌊s / lsb⌋
            | .ceiling => ⌈s / lsb⌉
          let saturated : ℤ := max (-(2 ^ (n - 1))) (min raw (2 ^ (n - 1) - 1))
          lsb * ((rintQ ((saturated : ℤ) : ℚ) : ℤ) : ℚ)) := by
  rw [perfect_comparator_eq]
  refine List.map_congr_left (fun s _ => ?_)
  cases mode <;>
    simp only [raw_count, clamp_count, lsb_voltage, rintQ_intCast]

theorem perfect_comparator_voltage_spec_witness :
    perfect_comparator [(3 : ℚ) / 2] 2 1 .floor .voltage = [(1 : ℚ)] := by
  have h := perfect_comparator_voltage_spec [(3 : ℚ) / 2] 2 1 .floor
    (by norm_num) (by norm_num)
  rw [h]
  norm_num [rintQ]

/-! ### C2: output counts stay in the signed bit_depth range -/

/-- C2: every count produced with output = counts is an integer in
[-2^(bit_depth-1), 2^(bit_depth-1)-1]; that interval holds exactly
2^bit_depth lattice points; and a sample of 10 x reference_voltage
saturates to the maximum count instead of wrapping. -/
theorem perfect_comparator_counts_range (trace : List ℚ) (n : ℕ) (v : ℚ)
    (mode : CompMode) (hn : 2 ≤ n) (hv : 0 < v) :
    (∀ x ∈ perfect_comparator trace n v mode .counts,
        ∃ k : ℤ, x = (k : ℚ) ∧ -(2 ^ (n - 1)) ≤ k ∧ k ≤ 2 ^ (n - 1) - 1) ∧
    (Finset.Icc (-(2 ^ (n - 1)) : ℤ) (2 ^ (n - 1) - 1)).card = 2 ^ n ∧
    perfect_comparator [10 * v] n v mode .counts = [((2 : ℚ) ^ (n - 1) - 1)] := by
  refine ⟨?_, ?_, ?_⟩
  · intro x hx
    rw [perfect_comparator_eq] at hx
    rcases List.mem_map.mp hx with ⟨s, _, hs⟩
    exact ⟨clamp_count n (raw_count n v mode s), hs.symm,
      (clamp_count_le n _).1, (clamp_count_le n _).2⟩
  · rw [Int.card_Icc]
    have hpow : (2 : ℤ) ^ (n - 1) - 1 + 1 - -(2 ^ (n - 1)) = 2 ^ n := by
      have hsucc : (2 : ℤ) ^ (n - 1) * 2 = 2 ^ n := by
        rw [← pow_succ]
        congr 1
        omega
      linarith
    rw [hpow, show ((2 : ℤ) ^ n) = ((2 ^ n : ℕ) : ℤ) by push_cast; ring,
      Int.toNat_natCast]
  · have hlsb : (10 * v) / lsb_voltage n v = ((10 * (2 ^ (n - 1) - 1) : ℤ) : ℚ) := by
      rw [lsb_voltage]
      have hne : v ≠ 0 := ne_of_gt hv
      push_cast
      field_simp
      ring
    have hclamp : clamp_count n (10 * (2 ^ (n - 1) - 1)) = 2 ^ (n - 1) - 1 := by
      have h1 := one_le_two_pow_int (n - 1)
      rw [clamp_count, min_eq_right (by nlinarith), max_eq_right (by nlinarith)]
    rw [perfect_comparator_eq]
    cases mode <;>
      simp only [List.map_cons, List.map_nil, raw_count, hlsb, Int.floor_intCast,
        Int.ceil_intCast, hclamp] <;>
      push_cast <;> ring_nf

theorem perfect_comparator_counts_range_witness :
    perfect_comparator [10 * (1 : ℚ)] 2 1 .floor .counts = [((2 : ℚ) ^ (2 - 1) - 1)] :=
  (perfect_comparator_counts_range [] 2 1 .floor (by norm_num) (by norm_num)).2.2

/-! ### C6: quantization is idempotent -/

/-- C6: applying perfect_comparator in voltage mode to a trace that is already
the voltage output of perfect_comparator with the same bit depth and reference
voltage returns the trace unchanged. -/
theorem perfect_comparator_idempotent (trace : List ℚ) (n : ℕ) (v : ℚ)
    (mode : CompMode) (hn : 2 ≤ n) (hv : 0 < v) :
    perfect_comparator (perfect_comparator trace n v mode .voltage) n v mode .voltage
      = perfect_comparator trace n v mode .voltage := by
  have hpow : (1 : ℚ) ≤ 2 ^ (n - 1) := one_le_two_pow_rat (n - 1)
  have h2 : (2 : ℚ) ≤ 2 ^ (n - 1) := by
    calc (2 : ℚ) = 2 ^ 1 := by norm_num
    _ ≤ 2 ^ (n - 1) := pow_le_pow_right₀ (by norm_num) (by omega)
  have hlsb_ne : lsb_voltage n v ≠ 0 := by
    rw [lsb_voltage]
    exact div_ne_zero (ne_of_gt hv) (by linarith)
  rw [perfect_comparator_eq, perfect_comparator_eq, List.map_map]
  refine List.map_congr_left (fun s _ => ?_)
  show lsb_voltage n v * ((clamp_count n (raw_count n v mode
        (lsb_voltage n v * ((clamp_count n (raw_count n v mode s) : ℤ) : ℚ))) : ℤ) : ℚ)
      = lsb_voltage n v * ((clamp_count n (raw_count n v mode s) : ℤ) : ℚ)
  set c := clamp_count n (raw_count n v mode s) with hc
  have hdiv : lsb_voltage n v * (c : ℚ) / lsb_voltage n v = (c : ℚ) :=
    mul_div_cancel_left₀ _ hlsb_ne
  have hraw : raw_count n v mode (lsb_voltage n v * (c : ℚ)) = c := by
    cases mode <;>
      simp only [raw_count, hdiv, Int.floor_intCast, Int.ceil_intCast]
  rw [hraw, clamp_count_of_mem n c (clamp_count_le n _).1 (clamp_count_le n _).2]

theorem perfect_comparator_idempotent_witness :
    perfect_comparator (perfect_comparator [(3 : ℚ) / 2] 2 1 .floor .voltage)
        2 1 .floor .voltage
      = perfect_comparator [(3 : ℚ) / 2] 2 1 .floor .voltage :=
  perfect_comparator_idempotent [(3 : ℚ) / 2] 2 1 .floor (by norm_num) (by norm_num)

end ADC

namespace ADC

/-! ### Heap lemmas and C9: aliasing behaviour of apply_saturation -/

lemma readArr_writeArr_self (h : Heap) (r : ℕ) (a : List ℚ) (hr : r < h.length) :
    readArr (writeArr h r a) r = a := by
  simp only [readArr, writeArr]
  rw [List.getElem?_set_self]
  · simp [hr]
  · exact hr

lemma readArr_writeArr_ne (h : Heap) (w rd : ℕ) (a : List ℚ) (hne : w ≠ rd) :
    readArr (writeArr h w a) rd = readArr h rd := by
  simp only [readArr, writeArr, List.getElem?_set_ne hne]

lemma readArr_append_of_lt (h : Heap) (t : List (List ℚ)) (r : ℕ) (hr : r < h.length) :
    readArr (h ++ t) r = readArr h r := by
  simp only [readArr, List.getElem?_append_left hr]

lemma writeArr_length (h : Heap) (r : ℕ) (a : List ℚ) :
    (writeArr h r a).length = h.length := by
  simp [writeArr]

lemma apply_saturation_st_length (h : Heap) (r n : ℕ) (v : ℚ) :
    (apply_saturation_st h r n v).1.length = h.length := by
  simp [apply_saturation_st, writeArr]

lemma apply_saturation_st_frame (h : Heap) (w rd n : ℕ) (v : ℚ) (hne : w ≠ rd) :
    readArr (apply_saturation_st h w n v).1 rd = readArr h rd := by
  simp only [apply_saturation_st]
  rw [readArr_writeArr_ne _ _ _ _ hne, readArr_writeArr_ne _ _ _ _ hne]

/-- C9: apply_saturation mutates its argument buffer in place through a view
(the returned reference is the argument reference and the buffer now holds the
clamped values), while perfect_comparator leaves the caller's trace buffer
untouched because the floor/ceiling step allocates a fresh buffer before
saturation. -/
theorem apply_saturation_aliasing (h : Heap) (r n : ℕ) (v : ℚ) (mode : CompMode)
    (output : AdcOutput) (hr : r < h.length) :
    (apply_saturation_st h r n v).2 = r ∧
    readArr (apply_saturation_st h r n v).1 r = (readArr h r).map (saturate_val n) ∧
    readArr (perfect_comparator_st h r n v mode output).1 r = readArr h r := by
  refine ⟨rfl, ?_, ?_⟩
  · simp only [apply_saturation_st]
    rw [readArr_writeArr_self]
    · rw [readArr_writeArr_self _ _ _ hr, List.map_map]
      rfl
    · rw [writeArr_length]
      exact hr
  · cases output
    case voltage =>
      simp only [perfect_comparator_st]
      rw [readArr_append_of_lt]
      · rw [readArr_append_of_lt]
        · rw [apply_saturation_st_frame _ _ _ _ _ (by omega)]
          exact readArr_append_of_lt _ _ _ hr
        · rw [apply_saturation_st_length]
          simp only [List.length_append, List.length_singleton]
          omega
      · simp only [List.length_append, List.length_singleton,
          apply_saturation_st_length]
        omega
    case counts =>
      simp only [perfect_comparator_st]
      rw [readArr_append_of_lt]
      · rw [apply_saturation_st_frame _ _ _ _ _ (by omega)]
        exact readArr_append_of_lt _ _ _ hr
      · rw [apply_saturation_st_length]
        simp only [List.length_append, List.length_singleton]
        omega

theorem apply_saturation_aliasing_witness :
    (apply_saturation_st [[(5 : ℚ), -300, 3]] 0 2 1).2 = 0 ∧
    readArr (apply_saturation_st [[(5 : ℚ), -300, 3]] 0 2 1).1 0
      = (readArr [[(5 : ℚ), -300, 3]] 0).map (saturate_val 2) ∧
    readArr (perfect_comparator_st [[(5 : ℚ), -300, 3]] 0 2 1 .floor .voltage).1 0
      = readArr [[(5 : ℚ), -300, 3]] 0 :=
  apply_saturation_aliasing [[(5 : ℚ), -300, 3]] 0 2 1 .floor .voltage (by simp)

end ADC

namespace ADC

/-! ### C5: the downsampling query grid (source lines 350-353)

The spec claims the target sample count is round((adc_rate/intermediate_rate)
x len(delayed_trace)) and the grid spacing is exactly 1/adc_rate.  The code
truncates with int() instead of rounding, and builds the grid with
np.linspace(0, new_n_samples/adc_rate, new_n_samples), whose endpoint
inclusion makes the spacing new_n/(new_n - 1) x (1/adc_rate). -/

/-- C5 counterexample: with adc_rate = 2, intermediate rate = 5 and a delayed
trace of length 7 the code count int(2.8) = 2 differs from round(2.8) = 3, and
with delayed length 10 (count 4) the second grid instant is 2/3, not the
0 + 1/adc_rate = 1/2 the claim requires. -/
theorem downsample_grid_claim_counterexample :
    downsample_n_samples 2 5 7 ≠ round ((2 : ℚ) / 5 * 7) ∧
    (downsample_times 2 5 10 0)[1]? ≠ some ((1 : ℚ) / 2) := by
  constructor
  · have h1 : downsample_n_samples 2 5 7 = 2 := by
      norm_num [downsample_n_samples, pyInt]
    have h2 : round ((2 : ℚ) / 5 * 7) = 3 := by
      rw [round_eq]
      norm_num
    rw [h1, h2]
    norm_num
  · have hn : (downsample_n_samples 2 5 10).toNat = 4 := by
      have h : downsample_n_samples 2 5 10 = 4 := by
        norm_num [downsample_n_samples, pyInt]
      rw [h]
      rfl
    have h4 : downsample_times 2 5 10 0 = [0, 2 / 3, 4 / 3, 2] := by
      simp only [downsample_times, hn, linspace]
      norm_num [List.range_succ]
    rw [h4]
    norm_num

/-- C5 amended: the interpolant is evaluated at
target_sample_count = int((adc_rate/intermediate_rate) x len(delayed_trace))
(Python int, i.e. truncation) instants, namely
numpy.linspace(0, target_sample_count/adc_rate, target_sample_count) shifted
by the declared start time; so instant i is
start + (target_sample_count/adc_rate) x i/(target_sample_count - 1), a
spacing of (target/(target-1)) x (1/adc_rate), not exactly 1/adc_rate. -/
theorem downsample_grid_formula (adc_f ups_f start : ℚ) (len n i : ℕ)
    (hn : (downsample_n_samples adc_f ups_f len).toNat = n)
    (h2 : 2 ≤ n) (hi : i < n) :
    (downsample_times adc_f ups_f len start).length = n ∧
    (downsample_times adc_f ups_f len start)[i]?
      = some ((n : ℚ) / adc_f * (i : ℚ) / ((n : ℚ) - 1) + start) := by
  have hne : n ≠ 1 := by omega
  constructor
  · simp [downsample_times, hn, linspace, hne]
  · simp only [downsample_times, hn, linspace, if_neg hne, List.getElem?_map,
      List.getElem?_range, hi, if_pos, Option.map_some, Option.map_some']
    congr 1
    ring

theorem downsample_grid_formula_witness :
    (downsample_times 2 5 10 0).length = 4 ∧
    (downsample_times 2 5 10 0)[1]? = some ((2 : ℚ) / 3) := by
  have hn : (downsample_n_samples 2 5 10).toNat = 4 := by
    have h : downsample_n_samples 2 5 10 = 4 := by
      norm_num [downsample_n_samples, pyInt]
    rw [h]
    rfl
  have h := downsample_grid_formula 2 5 0 10 4 1 hn (by norm_num) (by norm_num)
  refine ⟨h.1, ?_⟩
  rw [h.2]
  norm_num

end ADC

namespace ADC

/-! ### Shape lemmas for get_digital_trace -/

lemma even_trim_even (l : List ℚ) : Even (even_trim l).length := by
  rw [even_trim]
  split_ifs with h
  · rw [List.length_dropLast]
    exact Nat.even_iff.mpr (by omega)
  · exact Nat.even_iff.mpr (by omega)

lemma finalize_ok_even (ext : Externals) (dn uf : Option ℤ) (f : ℚ)
    (r : Except AdcError (List ℚ)) (t : List ℚ) (fq : ℚ)
    (h : finalize ext dn uf f r = .ok (t, fq)) : Even t.length := by
  cases r with
  | error e => simp [finalize] at h
  | ok d =>
    simp only [finalize, Except.ok.injEq, Prod.mk.injEq] at h
    rw [← h.1]
    exact even_trim_even _

lemma finalize_error_eq (ext : Externals) (dn uf : Option ℤ) (f : ℚ)
    (r : Except AdcError (List ℚ)) (e : AdcError)
    (h : finalize ext dn uf f r = .error e) : r = .error e := by
  cases r with
  | error e2 =>
    simp only [finalize, Except.error.injEq] at h
    rw [h]
  | ok d => simp [finalize] at h

lemma nyquist_filter_step_shape (ext : Externals) (trace : List ℚ)
    (inF adcF edge : ℚ) (nz : Option ℤ) :
    (∃ t, nyquist_filter_step ext trace inF adcF edge nz = .ok t) ∨
    nyquist_filter_step ext trace inF adcF edge nz = .error .nyquistZoneTooSmall ∨
    nyquist_filter_step ext trace inF adcF edge nz = .error .passbandTooWide := by
  cases nz with
  | none => exact Or.inl ⟨trace, by simp [nyquist_filter_step]⟩
  | some n =>
    simp only [nyquist_filter_step]
    by_cases h1 : n < 1
    · rw [if_pos h1]
      exact Or.inr (Or.inl rfl)
    · rw [if_neg h1]
      by_cases h2 : inF / 2 < (n : ℚ) * adcF / 2 - edge
      · rw [if_pos h2]
        exact Or.inr (Or.inr rfl)
      · rw [if_neg h2]
        exact Or.inl ⟨_, rfl⟩

lemma pipeline_after_filter_shape (ext : Externals) (ch : Channel)
    (trace ft : List ℚ) (inF adcF delay : ℚ) (nb : ℕ) (rv : ℚ)
    (at_ : AdcType) (out : AdcOutput) :
    (∃ t, pipeline_after_filter ext ch trace ft inF adcF delay nb rv at_ out = .ok t) ∨
    pipeline_after_filter ext ch trace ft inF adcF delay nb rv at_ out
      = .error .indexError := by
  simp only [pipeline_after_filter]
  split
  next e heq =>
    split at heq
    · split at heq
      · injection heq with h
        exact Or.inr (by rw [← h])
      · simp at heq
    · simp at heq
  next put putimes heq =>
    cases put with
    | nil => exact Or.inr rfl
    | cons p0 ps => exact Or.inl ⟨_, rfl⟩

end ADC

namespace ADC

/-- Reduction of get_digital_trace once the three mandatory fields are
present. -/
lemma get_digital_trace_some_eq (ext : Externals) (ch : Channel) (det : DetChannel)
    (ta rco : Bool) (at_ : AdcType) (diode : Option (List ℚ)) (out : AdcOutput)
    (uf nz : Option ℤ) (edge rand : ℚ) (nb : ℕ) (rv sf : ℚ)
    (hn : (if ta then det.trigger_adc_nbits else det.adc_nbits) = some nb)
    (hv : (if ta then det.trigger_adc_reference_voltage
           else det.adc_reference_voltage) = some rv)
    (hf : (if ta then det.trigger_adc_sampling_frequency
           else det.adc_sampling_frequency) = some sf) :
    get_digital_trace ext ch det ta rco at_ diode out uf nz edge rand
      = if ch.sampling_rate < sf * ext.GHz then .error .adcRateTooHigh
        else
          finalize ext (if ta then det.trigger_adc_ntaps else det.adc_ntaps) uf
            (sf * ext.GHz)
            (match nyquist_filter_step ext
               (diode.getD ch.trace)
               ch.sampling_rate (sf * ext.GHz) edge nz with
             | .error e => .error e
             | .ok filtered_trace =>
               pipeline_after_filter ext ch
                 (diode.getD ch.trace) filtered_trace
                 ch.sampling_rate (sf * ext.GHz)
                 (if rco then
                    (match (if ta then det.trigger_adc_time_delay
                            else det.adc_time_delay) with
                     | some d => d * ext.ns
                     | none => 0) + rand / (sf * ext.GHz)
                  else
                    (match (if ta then det.trigger_adc_time_delay
                            else det.adc_time_delay) with
                     | some d => d * ext.ns
                     | none => 0))
                 nb (rv * ext.V) at_ out) := by
  unfold get_digital_trace
  rw [hn, hv, hf]

/-! ### C3: the returned digital trace always has even length -/

/-- C3: whenever get_digital_trace returns a trace, that trace has an even
number of samples (the last sample is dropped when the length would be odd). -/
theorem get_digital_trace_even_length (ext : Externals) (ch : Channel)
    (det : DetChannel) (ta rco : Bool) (at_ : AdcType) (diode : Option (List ℚ))
    (out : AdcOutput) (uf nz : Option ℤ) (edge rand : ℚ) (t : List ℚ) (f : ℚ)
    (h : get_digital_trace ext ch det ta rco at_ diode out uf nz edge rand
           = .ok (t, f)) :
    Even t.length := by
  rcases hn : (if ta then det.trigger_adc_nbits else det.adc_nbits) with _ | nb
  · rw [show get_digital_trace ext ch det ta rco at_ diode out uf nz edge rand
        = .error (.missingField (if ta then "trigger_adc_nbits" else "adc_nbits") ch.id)
        from by unfold get_digital_trace; rw [hn]] at h
    simp at h
  rcases hv : (if ta then det.trigger_adc_reference_voltage
               else det.adc_reference_voltage) with _ | rv
  · rw [show get_digital_trace ext ch det ta rco at_ diode out uf nz edge rand
        = .error (.missingField
            (if ta then "trigger_adc_reference_voltage" else "adc_reference_voltage")
            ch.id)
        from by unfold get_digital_trace; rw [hn, hv]] at h
    simp at h
  rcases hf : (if ta then det.trigger_adc_sampling_frequency
               else det.adc_sampling_frequency) with _ | sf
  · rw [show get_digital_trace ext ch det ta rco at_ diode out uf nz edge rand
        = .error (.missingField
            (if ta then "trigger_adc_sampling_frequency" else "adc_sampling_frequency")
            ch.id)
        from by unfold get_digital_trace; rw [hn, hv, hf]] at h
    simp at h
  rw [get_digital_trace_some_eq ext ch det ta rco at_ diode out uf nz edge rand
    nb rv sf hn hv hf] at h
  by_cases hrate : ch.sampling_rate < sf * ext.GHz
  · rw [if_pos hrate] at h
    simp at h
  · rw [if_neg hrate] at h
    exact finalize_ok_even _ _ _ _ _ _ _ h

theorem get_digital_trace_even_length_witness :
    Even ([(0 : ℚ), 0, 0, 0].length) := by
  refine get_digital_trace_even_length ext0 ch0 det0 false false
    .perfect_floor_comparator none .voltage none none (1 / 50) 0 [0, 0, 0, 0] 2 ?_
  norm_num [get_digital_trace, ext0, ch0, det0, finalize, fir_step, even_trim,
    nyquist_filter_step, pipeline_after_filter, pySliceTo, rintQ, pyInt,
    downsample_times, downsample_n_samples, linspace, adc_dispatch,
    perfect_floor_comparator, perfect_comparator, lsb_voltage, apply_saturation,
    saturate_val, round_to_int, List.range_succ, List.replicate,
    show Int.toNat 4 = 4 from rfl, show Int.toNat 7 = 7 from rfl,
    show Int.toNat 2 = 2 from rfl]

end ADC

namespace ADC

/-! ### C4: the ADC-rate check -/

lemma pipeline_after_filter_not_rate_error (ext : Externals) (ch : Channel)
    (trace ft : List ℚ) (inF adcF delay : ℚ) (nb : ℕ) (rv : ℚ)
    (at_ : AdcType) (out : AdcOutput) :
    pipeline_after_filter ext ch trace ft inF adcF delay nb rv at_ out
      ≠ .error .adcRateTooHigh := by
  intro h
  rcases pipeline_after_filter_shape ext ch trace ft inF adcF delay nb rv at_ out with
    ⟨t, hok⟩ | hix
  · rw [hok] at h
    simp at h
  · rw [hix] at h
    simp at h

/-- C4: with the mandatory fields present, get_digital_trace returns the
ADC-rate configuration error exactly when the configured ADC sampling
frequency strictly exceeds the channel sampling rate; equality is accepted
without this error. -/
theorem get_digital_trace_rate_error_iff (ext : Externals) (ch : Channel)
    (det : DetChannel) (ta rco : Bool) (at_ : AdcType) (diode : Option (List ℚ))
    (out : AdcOutput) (uf nz : Option ℤ) (edge rand : ℚ) (nb : ℕ) (rv sf : ℚ)
    (hn : (if ta then det.trigger_adc_nbits else det.adc_nbits) = some nb)
    (hv : (if ta then det.trigger_adc_reference_voltage
           else det.adc_reference_voltage) = some rv)
    (hf : (if ta then det.trigger_adc_sampling_frequency
           else det.adc_sampling_frequency) = some sf) :
    get_digital_trace ext ch det ta rco at_ diode out uf nz edge rand
        = .error .adcRateTooHigh
      ↔ ch.sampling_rate < sf * ext.GHz := by
  rw [get_digital_trace_some_eq ext ch det ta rco at_ diode out uf nz edge rand
    nb rv sf hn hv hf]
  by_cases hrate : ch.sampling_rate < sf * ext.GHz
  · rw [if_pos hrate]
    simp [hrate]
  · rw [if_neg hrate]
    simp only [hrate, iff_false]
    intro hcon
    have hinner := finalize_error_eq _ _ _ _ _ _ hcon
    rcases nyquist_filter_step_shape ext
      (diode.getD ch.trace)
      ch.sampling_rate (sf * ext.GHz) edge nz with ⟨ft, hok⟩ | hz | hp
    · rw [hok] at hinner
      exact pipeline_after_filter_not_rate_error _ _ _ _ _ _ _ _ _ _ _ hinner
    · rw [hz] at hinner
      simp at hinner
    · rw [hp] at hinner
      simp at hinner

theorem get_digital_trace_rate_error_iff_witness :
    get_digital_trace ext0 ch0 det1 false false .perfect_floor_comparator none
      .voltage none none (1 / 50) 0 = .error .adcRateTooHigh := by
  have h := get_digital_trace_rate_error_iff ext0 ch0 det1 false false
    .perfect_floor_comparator none .voltage none none (1 / 50) 0 8 1 7
    rfl rfl rfl
  refine h.mpr ?_
  norm_num [ch0, ext0]

/-! ### C7: Nyquist-zone validation and passband -/

/-- C7: with valid mandatory fields and an accepted ADC rate, requesting a
Nyquist zone below 1 raises the configuration error; a zone whose upper
passband edge n x adc_rate/2 - edge exceeds half the input rate raises the
configuration error; otherwise the Butterworth bandpass collaborator is
invoked with passband ((n-1) x adc_rate/2 + edge, n x adc_rate/2 - edge). -/
theorem get_digital_trace_nyquist_spec (ext : Externals) (ch : Channel)
    (det : DetChannel) (ta rco : Bool) (at_ : AdcType) (diode : Option (List ℚ))
    (out : AdcOutput) (uf : Option ℤ) (edge rand : ℚ) (nb : ℕ) (rv sf : ℚ)
    (n : ℤ)
    (hn : (if ta then det.trigger_adc_nbits else det.adc_nbits) = some nb)
    (hv : (if ta then det.trigger_adc_reference_voltage
           else det.adc_reference_voltage) = some rv)
    (hf : (if ta then det.trigger_adc_sampling_frequency
           else det.adc_sampling_frequency) = some sf)
    (hrate : ¬ ch.sampling_rate < sf * ext.GHz) :
    (n < 1 →
      get_digital_trace ext ch det ta rco at_ diode out uf (some n) edge rand
        = .error .nyquistZoneTooSmall) ∧
    (1 ≤ n → ch.sampling_rate / 2 < (n : ℚ) * (sf * ext.GHz) / 2 - edge →
      get_digital_trace ext ch det ta rco at_ diode out uf (some n) edge rand
        = .error .passbandTooWide) ∧
    (1 ≤ n → ¬ ch.sampling_rate / 2 < (n : ℚ) * (sf * ext.GHz) / 2 - edge →
      nyquist_filter_step ext (diode.getD ch.trace)
          ch.sampling_rate (sf * ext.GHz) edge (some n)
        = .ok (ext.butterworth_filter_trace
            (diode.getD ch.trace) ch.sampling_rate
            (((n : ℚ) - 1) * (sf * ext.GHz) / 2 + edge,
             (n : ℚ) * (sf * ext.GHz) / 2 - edge))) := by
  refine ⟨fun h1 => ?_, fun h1 h2 => ?_, fun h1 h2 => ?_⟩
  · rw [get_digital_trace_some_eq ext ch det ta rco at_ diode out uf (some n)
      edge rand nb rv sf hn hv hf, if_neg hrate]
    have hny : nyquist_filter_step ext
        (diode.getD ch.trace)
        ch.sampling_rate (sf * ext.GHz) edge (some n)
        = .error .nyquistZoneTooSmall := by
      simp only [nyquist_filter_step]
      rw [if_pos h1]
    rw [hny]
    rfl
  · rw [get_digital_trace_some_eq ext ch det ta rco at_ diode out uf (some n)
      edge rand nb rv sf hn hv hf, if_neg hrate]
    have hny : nyquist_filter_step ext
        (diode.getD ch.trace)
        ch.sampling_rate (sf * ext.GHz) edge (some n)
        = .error .passbandTooWide := by
      simp only [nyquist_filter_step]
      rw [if_neg (by omega), if_pos h2]
    rw [hny]
    rfl
  · simp only [nyquist_filter_step]
    rw [if_neg (by omega), if_neg h2]

theorem get_digital_trace_nyquist_spec_witness :
    get_digital_trace ext0 ch0 det0 false false .perfect_floor_comparator none
      .voltage none (some 0) (1 / 50) 0 = .error .nyquistZoneTooSmall := by
  have h := get_digital_trace_nyquist_spec ext0 ch0 det0 false false
    .perfect_floor_comparator none .voltage none (1 / 50) 0 8 1 2 0
    rfl rfl rfl (by norm_num [ch0, ext0])
  exact h.1 (by norm_num)

/-! ### C8: determinism with the clock jitter disabled -/

/-- C8: with random_clock_offset disabled, get_digital_trace does not consume
the random draw: two invocations with identical channel, configuration and
options but different random values return identical digitised traces and
identical sampling frequencies. -/
theorem get_digital_trace_no_jitter_deterministic (ext : Externals) (ch : Channel)
    (det : DetChannel) (ta : Bool) (at_ : AdcType) (diode : Option (List ℚ))
    (out : AdcOutput) (uf nz : Option ℤ) (edge : ℚ) (r1 r2 : ℚ) :
    get_digital_trace ext ch det ta false at_ diode out uf nz edge r1
      = get_digital_trace ext ch det ta false at_ diode out uf nz edge r2 := rfl

/-! ### C10: an upsampling factor below 2 is a no-op -/

lemma get_digital_trace_missing1_eq (ext : Externals) (ch : Channel)
    (det : DetChannel) (ta rco : Bool) (at_ : AdcType) (diode : Option (List ℚ))
    (out : AdcOutput) (uf nz : Option ℤ) (edge rand : ℚ)
    (hn : (if ta then det.trigger_adc_nbits else det.adc_nbits) = none) :
    get_digital_trace ext ch det ta rco at_ diode out uf nz edge rand
      = .error (.missingField (if ta then "trigger_adc_nbits" else "adc_nbits")
          ch.id) := by
  unfold get_digital_trace
  rw [hn]

lemma get_digital_trace_missing2_eq (ext : Externals) (ch : Channel)
    (det : DetChannel) (ta rco : Bool) (at_ : AdcType) (diode : Option (List ℚ))
    (out : AdcOutput) (uf nz : Option ℤ) (edge rand : ℚ) (nb : ℕ)
    (hn : (if ta then det.trigger_adc_nbits else det.adc_nbits) = some nb)
    (hv : (if ta then det.trigger_adc_reference_voltage
           else det.adc_reference_voltage) = none) :
    get_digital_trace ext ch det ta rco at_ diode out uf nz edge rand
      = .error (.missingField
          (if ta then "trigger_adc_reference_voltage" else "adc_reference_voltage")
          ch.id) := by
  unfold get_digital_trace
  rw [hn, hv]

lemma get_digital_trace_missing3_eq (ext : Externals) (ch : Channel)
    (det : DetChannel) (ta rco : Bool) (at_ : AdcType) (diode : Option (List ℚ))
    (out : AdcOutput) (uf nz : Option ℤ) (edge rand : ℚ) (nb : ℕ) (rv : ℚ)
    (hn : (if ta then det.trigger_adc_nbits else det.adc_nbits) = some nb)
    (hv : (if ta then det.trigger_adc_reference_voltage
           else det.adc_reference_voltage) = some rv)
    (hf : (if ta then det.trigger_adc_sampling_frequency
           else det.adc_sampling_frequency) = none) :
    get_digital_trace ext ch det ta rco at_ diode out uf nz edge rand
      = .error (.missingField
          (if ta then "trigger_adc_sampling_frequency" else "adc_sampling_frequency")
          ch.id) := by
  unfold get_digital_trace
  rw [hn, hv, hf]

lemma finalize_small_factor (ext : Externals) (dn : Option ℤ) (f : ℚ)
    (r : Except AdcError (List ℚ)) (u : ℤ) (hu : u < 2) :
    finalize ext dn (some u) f r = finalize ext dn none f r := by
  cases r with
  | error e => rfl
  | ok d =>
    simp only [finalize, fir_step]
    rw [if_neg (by omega)]

/-- C10: supplying an upsampling factor below 2 applies no FIR filter: the
fir step returns the digitised trace and the sampling frequency unchanged,
and get_digital_trace behaves exactly as if no factor had been supplied. -/
theorem fir_step_small_factor (ext : Externals) (ch : Channel) (det : DetChannel)
    (ta rco : Bool) (at_ : AdcType) (diode : Option (List ℚ)) (out : AdcOutput)
    (nz : Option ℤ) (edge rand : ℚ) (u : ℤ) (dn : Option ℤ) (d : List ℚ) (f : ℚ)
    (hu : u < 2) :
    fir_step ext dn (some u) d f = (d, f) ∧
    get_digital_trace ext ch det ta rco at_ diode out (some u) nz edge rand
      = get_digital_trace ext ch det ta rco at_ diode out none nz edge rand := by
  constructor
  · simp only [fir_step]
    rw [if_neg (by omega)]
  · rcases hn : (if ta then det.trigger_adc_nbits else det.adc_nbits) with _ | nb
    · rw [get_digital_trace_missing1_eq ext ch det ta rco at_ diode out (some u)
        nz edge rand hn,
        get_digital_trace_missing1_eq ext ch det ta rco at_ diode out none
        nz edge rand hn]
    rcases hv : (if ta then det.trigger_adc_reference_voltage
                 else det.adc_reference_voltage) with _ | rv
    · rw [get_digital_trace_missing2_eq ext ch det ta rco at_ diode out (some u)
        nz edge rand nb hn hv,
        get_digital_trace_missing2_eq ext ch det ta rco at_ diode out none
        nz edge rand nb hn hv]
    rcases hf : (if ta then det.trigger_adc_sampling_frequency
                 else det.adc_sampling_frequency) with _ | sf
    · rw [get_digital_trace_missing3_eq ext ch det ta rco at_ diode out (some u)
        nz edge rand nb rv hn hv hf,
        get_digital_trace_missing3_eq ext ch det ta rco at_ diode out none
        nz edge rand nb rv hn hv hf]
    rw [get_digital_trace_some_eq ext ch det ta rco at_ diode out (some u) nz
      edge rand nb rv sf hn hv hf,
      get_digital_trace_some_eq ext ch det ta rco at_ diode out none nz
      edge rand nb rv sf hn hv hf]
    by_cases hc : ch.sampling_rate < sf * ext.GHz
    · rw [if_pos hc, if_pos hc]
    · rw [if_neg hc, if_neg hc]
      exact finalize_small_factor _ _ _ _ _ hu

theorem fir_step_small_factor_witness :
    fir_step ext0 none (some 1) [(3 : ℚ)] 2 = ([(3 : ℚ)], 2) ∧
    get_digital_trace ext0 ch0 det0 false false .perfect_floor_comparator none
        .voltage (some 1) none (1 / 50) 0
      = get_digital_trace ext0 ch0 det0 false false .perfect_floor_comparator none
        .voltage none none (1 / 50) 0 :=
  fir_step_small_factor ext0 ch0 det0 false false .perfect_floor_comparator none
    .voltage none (1 / 50) 0 1 none [(3 : ℚ)] 2 (by norm_num)

end ADC
